import Mathlib

/-!
Verification development for the crypto monitoring dashboard (`app.py`).

The script polls an upstream market-data API, appends snapshots to a CSV
log, and serves derived views (volatility chart, 7-day price feed, latest
snapshot slide-deck export).  We shallowly embed its data model and the
route handlers as Lean functions and prove the specified properties.

Modelling conventions:
* Python numbers are `PyNum` (an `Int` or an exact `Rat`), so the
  int-vs-float distinction of defaults is visible; exact rationals stand
  in for floats (all claimed arithmetic is exact at the claimed inputs).
* JSON field access: `Option` models present-vs-missing; for the one
  field read with plain `dict.get` (the 24h change), `JVal` also models
  an explicit JSON `null`, which `get` maps to Python `None`.
* Network calls are modelled by a `FetchResult` argument: `failure`
  collapses timeout / non-2xx / malformed-body (all caught by the bare
  `except:`), `success` carries the decoded JSON array.
* The CSV file is `CsvFile`: its row list plus how many header rows have
  been written to it; `none` means the file does not exist yet.
* An HTTP 404 "not found" response is `Except.error` with the route's
  message string.
-/

/-- A Python numeric value: either an `int` or a `float` (modelled
exactly as a rational). -/
inductive PyNum where
  | pyInt (i : ℤ)
  | pyFloat (q : ℚ)
deriving DecidableEq, Repr

/-- Python truthiness of a number: `0` and `0.0` are falsy. -/
def PyNum.falsy : PyNum → Bool
  | .pyInt i => i == 0
  | .pyFloat q => q == 0

/-- Numeric value of a `PyNum`. -/
def PyNum.toQ : PyNum → ℚ
  | .pyInt i => (i : ℚ)
  | .pyFloat q => q

/-- A JSON field that can be absent, an explicit `null`, or a value. -/
inductive JVal (α : Type) where
  | missing
  | null
  | val (a : α)
deriving DecidableEq, Repr

/-- Python `dict.get(key)` (no default): absent and `null` both give
`None`. -/
def JVal.get : JVal α → Option α
  | .missing => none
  | .null => none
  | .val a => some a

/-- One asset object of the upstream markets-listing JSON.  Fields read
with `coin.get(key, default)` are `Option` (an explicit `null` there
would poison or crash the row and is outside every claim, so only
present-vs-missing is modelled); the change field is read with plain
`coin.get(key)` and so distinguishes `null` from missing. -/
structure Asset where
  name : Option String
  symbol : Option String
  current_price : Option PyNum
  price_change_percentage_24h : JVal PyNum
  total_volume : Option PyNum
deriving DecidableEq, Repr

/-- One row of the history store: `time,name,symbol,price,change,volume`. -/
structure SnapshotRow where
  time : String
  name : String
  symbol : String
  price : PyNum
  change : PyNum
  volume : PyNum
deriving DecidableEq, Repr

/-- The persisted CSV file: the data rows plus the number of header rows
that have ever been written into it. -/
structure CsvFile where
  headerCount : ℕ
  rows : List SnapshotRow
deriving DecidableEq, Repr

/-- Process state: the module-level `last_snapshot` cache and the CSV
file (`none` = `crypto_data.csv` does not exist). -/
structure AppState where
  last_snapshot : List SnapshotRow
  csv : Option CsvFile
deriving DecidableEq, Repr

/-- Outcome of the upstream markets request, as observed by the bare
`except:`: any timeout, non-2xx status or JSON decode error is
`failure`; `success` carries the decoded array. -/
inductive FetchResult where
  | failure
  | success (coins : List Asset)
deriving DecidableEq, Repr

/-- Python `str.upper()` (the tickers are ASCII): uppercase each
character. -/
def strUpper (s : String) : String := String.mk (s.data.map Char.toUpper)

/-- Row built for one asset (`app.py` lines 47-54): shared timestamp
`now`, `coin.get("name", "")`, `coin.get("symbol", "").upper()`,
`coin.get("current_price", 0.0)`,
`coin.get("price_change_percentage_24h") or 0.0`,
`coin.get("total_volume", 0)`. -/
def normalizeCoin (now : String) (c : Asset) : SnapshotRow :=
  { time := now
    name := c.name.getD ""
    symbol := strUpper (c.symbol.getD "")
    price := c.current_price.getD (.pyFloat 0)
    change :=
      match c.price_change_percentage_24h.get with
      | none => .pyFloat 0
      | some v => if v.falsy then .pyFloat 0 else v
    volume := c.total_volume.getD (.pyInt 0) }

/-- `fetch_crypto_data` (`app.py` lines 24-64): on failure return the
cache unchanged; on success build the batch, overwrite the cache, and
write to the CSV (create with header, else append without header).
Returns the route's JSON value paired with the new state. -/
def fetch_crypto_data (resp : FetchResult) (now : String) (st : AppState) :
    List SnapshotRow × AppState :=
  match resp with
  | .failure => (st.last_snapshot, st)
  | .success coins =>
    let rows := coins.map (normalizeCoin now)
    let csv' : CsvFile :=
      match st.csv with
      | none => { headerCount := 1, rows := rows }
      | some f => { headerCount := f.headerCount, rows := f.rows ++ rows }
    (rows, { last_snapshot := rows, csv := some csv' })

/-- A sequence of capture cycles (the 30-second scheduler job and/or
`/data` requests), each with its fetch outcome and wall-clock time. -/
def runCaptures (resps : List (FetchResult × String)) (st : AppState) : AppState :=
  resps.foldl (fun s rn => (fetch_crypto_data rn.1 rn.2 s).2) st

/-- The persisted data rows (empty when the file does not exist). -/
def storeRows (st : AppState) : List SnapshotRow :=
  match st.csv with
  | none => []
  | some f => f.rows

/-- Number of header rows ever written (0 when the file does not exist). -/
def headerCountOf (st : AppState) : ℕ :=
  match st.csv with
  | none => 0
  | some f => f.headerCount

/-- Batch size of a fetch outcome; `none` marks a failed fetch. -/
def batchSize : FetchResult → Option ℕ
  | .failure => none
  | .success coins => some coins.length

/-! ## Derived-view engine: volatility series (`/chart/<symbol>`) -/

/-- Tail of `pandas` `pct_change`, given the previous price.  A zero
previous price makes the float quotient `inf` (`p/0`, `p ≠ 0`) or `NaN`
(`0/0`); either way every rolling-std window containing that return
evaluates to `NaN` (a `NaN` return is not a valid observation, and an
`inf` observation poisons the window's mean and squared deviations), so
such a return is embedded as `none` — not a valid finite observation.
Prices can be zero: a missing `current_price` defaults to `0.0`
(`app.py` line 51). -/
def pctAux (prev : ℚ) : List ℚ → List (Option ℚ)
  | [] => []
  | p :: ps => (if prev = 0 then none else some (p / prev - 1)) :: pctAux p ps

/-- `df["price"].pct_change()` (`app.py` line 104): `none` (NaN) at
index 0, then `price[i]/price[i-1] - 1`, which is `none` again when the
previous price is zero (the float `inf`/`NaN` path). -/
def pct_change : List ℚ → List (Option ℚ)
  | [] => []
  | p :: ps => none :: pctAux p ps

/-- Sample variance (ddof = 1), as `pandas` `std` squares it. -/
def sampleVar (xs : List ℚ) : ℚ :=
  ((xs.map fun x => (x - xs.sum / (xs.length : ℚ)) ^ 2).sum) / ((xs.length : ℚ) - 1)

/-- `series.rolling(10).std()` squared, on an `Option`-valued series:
entry `i` looks at the trailing window of positions `max(0, i-9) .. i`;
it is defined only when that window holds 10 non-missing observations
(`min_periods` defaults to the window size), and then is the sample
variance of those 10 values. -/
def rolling_var (r : List (Option ℚ)) : List (Option ℚ) :=
  (List.range r.length).map fun i =>
    let vals := ((r.take (i + 1)).drop (i + 1 - 10)).filterMap id
    if vals.length = 10 then some (sampleVar vals) else none

/-- `df["return"].rolling(10).std() * (252 ** 0.5)` (`app.py` line 105)
applied to a price list: the annualized rolling volatility,
`sqrt(sample variance) * sqrt 252` wherever the window is full. -/
noncomputable def rolling_vol (prices : List ℚ) : List (Option ℝ) :=
  (rolling_var (pct_change prices)).map
    (Option.map fun v : ℚ => Real.sqrt (v : ℝ) * Real.sqrt 252)

/-- Case-insensitive symbol match of `app.py` line 98:
`df["symbol"].str.upper() == symbol.upper()`. -/
def matchSym (symbol : String) (r : SnapshotRow) : Bool :=
  strUpper r.symbol == strUpper symbol

/-- Lexicographic strict comparison of character lists (character order
is code-point order). -/
def charListLt : List Char → List Char → Bool
  | [], [] => false
  | [], _ :: _ => true
  | _ :: _, [] => false
  | a :: as, b :: bs => if a < b then true else if b < a then false else charListLt as bs

/-- Strict lexicographic string comparison (an executable equivalent of
the standard string order, see `strLt_iff`). -/
def strLt (s₁ s₂ : String) : Bool := charListLt s₁.data s₂.data

/-- Lexicographic `≤` on strings. -/
def strLe (s₁ s₂ : String) : Bool := ! strLt s₂ s₁

/-- Maximum of two strings in lexicographic order. -/
def strMax (s₁ s₂ : String) : String := if strLt s₁ s₂ then s₂ else s₁

/-- Insert a row into a list sorted by `time`. -/
def insertTime (r : SnapshotRow) : List SnapshotRow → List SnapshotRow
  | [] => [r]
  | x :: xs => if strLe r.time x.time then r :: x :: xs else x :: insertTime r xs

/-- `df.sort_values("time")` (`app.py` line 103): sort the selected rows
by their capture time. -/
def sortByTime : List SnapshotRow → List SnapshotRow
  | [] => []
  | r :: rs => insertTime r (sortByTime rs)

/-- The price series the chart plots for a symbol: matching rows, in
time order, as exact numbers. -/
def chartPrices (f : CsvFile) (symbol : String) : List ℚ :=
  (sortByTime (f.rows.filter (matchSym symbol))).map fun r => r.price.toQ

/-- The volatility series the chart plots. -/
noncomputable def chartSeries (f : CsvFile) (symbol : String) : List (Option ℝ) :=
  rolling_vol (chartPrices f symbol)

/-- `/chart/<symbol>` (`app.py` lines 92-119): 404 when the CSV does not
exist; 404 when no row matches the symbol case-insensitively; otherwise
the rendered title and the plotted volatility series. -/
noncomputable def chart (csv : Option CsvFile) (symbol : String) :
    Except String (String × List (Option ℝ)) :=
  match csv with
  | none => .error "No data yet"
  | some f =>
    if (f.rows.filter (matchSym symbol)) = [] then
      .error "No data for this symbol"
    else
      .ok (strUpper symbol ++ " Volatility", chartSeries f symbol)

/-! ## Derived-view engine: latest snapshot (`/pptx`) -/

/-- Maximum of a list of strings under lexicographic order, as
`df["time"].max()` computes it on string-typed data. -/
def listMaxStr : List String → String
  | [] => ""
  | s :: rest => rest.foldl strMax s

/-- `df["time"].max()` over the store's rows (`app.py` line 159). -/
def latestTime (rows : List SnapshotRow) : String :=
  listMaxStr (rows.map fun r => r.time)

/-- Projection of a row to `['name','symbol','price','change','volume']`
(`app.py` line 160): the timestamp is dropped. -/
def proj (r : SnapshotRow) : String × String × PyNum × PyNum × PyNum :=
  (r.name, r.symbol, r.price, r.change, r.volume)

/-- The slide table body: rows at the maximal time, projected. -/
def latest_df (f : CsvFile) : List (String × String × PyNum × PyNum × PyNum) :=
  (f.rows.filter fun r => r.time = latestTime f.rows).map proj

/-- `/pptx` (`app.py` lines 153-185): 404 when the CSV does not exist;
otherwise the slide title's timestamp and the table rows. -/
def ppt (csv : Option CsvFile) :
    Except String (String × List (String × String × PyNum × PyNum × PyNum)) :=
  match csv with
  | none => .error "No data yet"
  | some f => .ok (latestTime f.rows, latest_df f)

/-! ## History feed adapter (`/btc_history`) -/

/-- Outcome of the market-chart request: `failure` for any caught
exception, `success` with the `prices` array (epoch milliseconds paired
with a price) otherwise. -/
inductive MarketChart where
  | failure
  | success (prices : List (ℕ × ℚ))
deriving DecidableEq, Repr

/-- Round half to even, Python's `round` on exact values. -/
def roundHalfEven (x : ℚ) : ℤ :=
  let f := ⌊x⌋
  if x - f < 1 / 2 then f
  else if 1 / 2 < x - f then f + 1
  else if f % 2 = 0 then f else f + 1

/-- Python `round(p, 2)`. -/
def round2 (q : ℚ) : ℚ := (roundHalfEven (q * 100) : ℚ) / 100

/-- Zero-padded two-digit decimal rendering. -/
def pad2 (n : ℕ) : List Char :=
  [Char.ofNat (48 + n / 10), Char.ofNat (48 + n % 10)]

/-- Zero-padded four-digit decimal rendering. -/
def pad4 (n : ℕ) : List Char :=
  [Char.ofNat (48 + n / 1000), Char.ofNat (48 + n / 100 % 10),
   Char.ofNat (48 + n / 10 % 10), Char.ofNat (48 + n % 10)]

/-- Civil date (year, month, day) of a day count since 1970-01-01
(Gregorian; the standard days-to-civil algorithm). -/
def civilFromDays (days : ℕ) : ℕ × ℕ × ℕ :=
  let z := days + 719468
  let era := z / 146097
  let doe := z % 146097
  let yoe := (doe - doe / 1460 + doe / 36524 - doe / 146096) / 365
  let y := yoe + era * 400
  let doy := doe - (365 * yoe + yoe / 4 - yoe / 100)
  let mp := (5 * doy + 2) / 153
  let d := doy - (153 * mp + 2) / 5 + 1
  let m := if mp < 10 then mp + 3 else mp - 9
  (if m ≤ 2 then y + 1 else y, m, d)

/-- `pd.to_datetime(ms, unit="ms").strftime("%Y-%m-%d")` (`app.py` line
141): the UTC calendar date of the millisecond timestamp, formatted
`YYYY-MM-DD`; the time of day (`ms % 86400000`) is discarded. -/
def dateStrOfMs (ms : ℕ) : String :=
  let c := civilFromDays (ms / 86400000)
  String.mk (pad4 c.1 ++ '-' :: pad2 c.2.1 ++ '-' :: pad2 c.2.2)

/-- `/btc_history` (`app.py` lines 125-147): empty array on failure,
else each `[ms, price]` point becomes `{date, price}` with the date
truncated to day granularity and the price rounded to 2 decimals. -/
def btc_history (resp : MarketChart) : List (String × ℚ) :=
  match resp with
  | .failure => []
  | .success prices => prices.map fun p => (dateStrOfMs p.1, round2 p.2)

/-! ## String-ordered timestamps (`/pptx` reads `time` as plain text) -/

/-- The decimal number read off a list of digit characters (most
significant first). -/
def toNum : List Char → ℕ
  | [] => 0
  | c :: cs => (c.toNat - 48) * 10 ^ cs.length + toNum cs

/-- The character list of a `YYYY-MM-DD HH:MM:SS` timestamp. -/
def fmtTime (y mo d h mi s : ℕ) : List Char :=
  pad4 y ++ '-' :: (pad2 mo ++ '-' :: (pad2 d ++ ' ' ::
    (pad2 h ++ ':' :: (pad2 mi ++ ':' :: pad2 s))))

/-- A string is a well-formatted timestamp: it renders some bounded
field values in the fixed `YYYY-MM-DD HH:MM:SS` layout. -/
def WFTime (str : String) : Prop :=
  ∃ y mo d h mi s, y < 10000 ∧ mo < 100 ∧ d < 100 ∧ h < 100 ∧ mi < 100 ∧
    s < 100 ∧ str.data = fmtTime y mo d h mi s

/-- Decimal digit character test. -/
def isDig (c : Char) : Bool := 48 ≤ c.toNat && c.toNat ≤ 57

/-- The chronological value of a timestamp string: its digits, read as
one number.  For the fixed zero-padded layout this orders timestamps by
(year, month, day, hour, minute, second), i.e. chronologically. -/
def chronVal (str : String) : ℕ :=
  toNum (str.data.filter isDig)

/-- The (year, month, day, hour, minute, second) tuple packed into one
number whose numeric order is the chronological (lexicographic) order of
the tuple, the fields being bounded by 100. -/
def timeKey (y mo d h mi s : ℕ) : ℕ :=
  ((((y * 100 + mo) * 100 + d) * 100 + h) * 100 + mi) * 100 + s

/-! ## Sample data used by concrete instantiations -/

/-- A store row with the fields the examples care about. -/
def mkRow (t sym : String) (p : ℚ) : SnapshotRow :=
  { time := t, name := "Coin", symbol := sym,
    price := .pyFloat p, change := .pyFloat 0, volume := .pyInt 0 }

/-- A fully populated upstream asset. -/
def asset1 : Asset :=
  { name := some "Bitcoin", symbol := some "btc",
    current_price := some (.pyFloat 100),
    price_change_percentage_24h := .val (.pyFloat (5 / 2)),
    total_volume := some (.pyInt 1000) }

/-- An upstream asset with every optional field absent. -/
def assetMissing : Asset :=
  { name := none, symbol := none, current_price := none,
    price_change_percentage_24h := .missing, total_volume := none }

/-- An upstream asset whose 24h change is an explicit JSON `null`. -/
def assetNull : Asset :=
  { name := some "Tether", symbol := some "usdt",
    current_price := some (.pyFloat 1),
    price_change_percentage_24h := .null,
    total_volume := some (.pyInt 7) }

/-- A store with ten rows for one symbol at increasing times: exactly
enough rows that the claimed position 9 of the volatility series exists. -/
def cxFile : CsvFile :=
  { headerCount := 1,
    rows := [mkRow "2024-01-01 00:00:01" "BTC" 1, mkRow "2024-01-01 00:00:02" "BTC" 2,
             mkRow "2024-01-01 00:00:03" "BTC" 1, mkRow "2024-01-01 00:00:04" "BTC" 2,
             mkRow "2024-01-01 00:00:05" "BTC" 1, mkRow "2024-01-01 00:00:06" "BTC" 2,
             mkRow "2024-01-01 00:00:07" "BTC" 1, mkRow "2024-01-01 00:00:08" "BTC" 2,
             mkRow "2024-01-01 00:00:09" "BTC" 1, mkRow "2024-01-01 00:00:10" "BTC" 2] }

/-- A store with twelve rows for one symbol (the spec's Scenario B). -/
def f12 : CsvFile :=
  { headerCount := 1,
    rows := [mkRow "2024-01-01 00:00:01" "BTC" 100, mkRow "2024-01-01 00:00:02" "BTC" 101,
             mkRow "2024-01-01 00:00:03" "BTC" 99, mkRow "2024-01-01 00:00:04" "BTC" 100,
             mkRow "2024-01-01 00:00:05" "BTC" 101, mkRow "2024-01-01 00:00:06" "BTC" 99,
             mkRow "2024-01-01 00:00:07" "BTC" 100, mkRow "2024-01-01 00:00:08" "BTC" 101,
             mkRow "2024-01-01 00:00:09" "BTC" 99, mkRow "2024-01-01 00:00:10" "BTC" 100,
             mkRow "2024-01-01 00:00:11" "BTC" 101, mkRow "2024-01-01 00:00:12" "BTC" 99] }

/-- A two-capture store: two assets at one time, then one asset later
(the spec's Scenario C shape). -/
def f2t : CsvFile :=
  { headerCount := 1,
    rows := [mkRow "2024-01-01 00:00:00" "BTC" 100, mkRow "2024-01-01 00:00:00" "ETH" 10,
             mkRow "2024-01-01 00:00:30" "BTC" 101] }

/-- A nonempty starting state with an existing file, for append examples. -/
def stX : AppState :=
  { last_snapshot := [mkRow "2024-01-01 00:00:00" "BTC" 100],
    csv := some { headerCount := 1, rows := [mkRow "2024-01-01 00:00:00" "BTC" 100] } }

/-! ## Claims about the snapshot fetcher -/

/-- C2: if the upstream fetch fails (timeout, non-2xx status, malformed
body — all collapsed by the bare `except:`), `capture()` does not raise:
it returns the current `last_snapshot` cache value, the cache is
unchanged, the whole state is unchanged, and no rows are appended. -/
theorem C2_failure_fallback (now : String) (st : AppState) :
    (fetch_crypto_data .failure now st).1 = st.last_snapshot ∧
    (fetch_crypto_data .failure now st).2 = st ∧
    storeRows (fetch_crypto_data .failure now st).2 = storeRows st := by
  exact ⟨rfl, rfl, rfl⟩

/-- C4: a successful capture builds exactly one row per returned asset
(the batch is the image of `normalizeCoin`, so it has one entry per
asset), every row of the batch carries the single shared timestamp
`now`, a present ticker symbol is upper-cased, and a missing 24h-change
field defaults to `0.0`. -/
theorem C4_success_batch_shape (coins : List Asset) (now : String) (st : AppState) :
    (fetch_crypto_data (.success coins) now st).1 = coins.map (normalizeCoin now) ∧
    ((fetch_crypto_data (.success coins) now st).1).length = coins.length ∧
    (∀ r ∈ (fetch_crypto_data (.success coins) now st).1, r.time = now) ∧
    (∀ c : Asset, ∀ s, c.symbol = some s → (normalizeCoin now c).symbol = strUpper s) ∧
    (∀ c : Asset, c.price_change_percentage_24h = .missing →
      (normalizeCoin now c).change = .pyFloat 0) := by
  refine ⟨rfl, by simp [fetch_crypto_data], ?_, ?_, ?_⟩
  · intro r hr
    have : (fetch_crypto_data (.success coins) now st).1 = coins.map (normalizeCoin now) := rfl
    rw [this] at hr
    obtain ⟨c, _, rfl⟩ := List.mem_map.mp hr
    rfl
  · intro c s hs
    simp [normalizeCoin, hs]
  · intro c h
    simp [normalizeCoin, h, JVal.get]

/-- Witness for C4 at a concrete two-asset batch. -/
theorem C4_success_batch_shape_witness :
    (fetch_crypto_data (.success [asset1, assetMissing]) "2024-01-01 00:00:00" ⟨[], none⟩).1 =
      [normalizeCoin "2024-01-01 00:00:00" asset1,
       normalizeCoin "2024-01-01 00:00:00" assetMissing] ∧
    (normalizeCoin "2024-01-01 00:00:00" assetMissing).change = .pyFloat 0 := by
  exact ⟨(C4_success_batch_shape [asset1, assetMissing] "2024-01-01 00:00:00" ⟨[], none⟩).1,
    (C4_success_batch_shape [asset1, assetMissing] "2024-01-01 00:00:00" ⟨[], none⟩).2.2.2.2
      assetMissing rfl⟩

/-- C8: a failed capture leaves the state untouched; a successful
capture returns exactly the batch that becomes the new cache, and the
store grows by exactly that batch (in order).  The cache is never
updated without the corresponding append. -/
theorem C8_cache_store_coherence (resp : FetchResult) (now : String) (st : AppState) :
    (resp = .failure → (fetch_crypto_data resp now st).2 = st) ∧
    (∀ coins, resp = .success coins →
      (fetch_crypto_data resp now st).1 = ((fetch_crypto_data resp now st).2).last_snapshot ∧
      storeRows (fetch_crypto_data resp now st).2 =
        storeRows st ++ (fetch_crypto_data resp now st).1) := by
  constructor
  · rintro rfl; rfl
  · rintro coins rfl
    refine ⟨rfl, ?_⟩
    cases h : st.csv with
    | none => simp [fetch_crypto_data, storeRows, h]
    | some f => simp [fetch_crypto_data, storeRows, h]

/-- Witness for C8: a failure at an empty state, a success on a
nonempty store. -/
theorem C8_cache_store_coherence_witness :
    (fetch_crypto_data .failure "2024-01-01 00:00:30" ⟨[], none⟩).2 = ⟨[], none⟩ ∧
    storeRows (fetch_crypto_data (.success [asset1]) "2024-01-01 00:00:30" stX).2 =
      storeRows stX ++ (fetch_crypto_data (.success [asset1]) "2024-01-01 00:00:30" stX).1 := by
  exact ⟨(C8_cache_store_coherence .failure "2024-01-01 00:00:30" ⟨[], none⟩).1 rfl,
    ((C8_cache_store_coherence (.success [asset1]) "2024-01-01 00:00:30" stX).2 [asset1] rfl).2⟩

/-- C9: normalization handles explicit nulls, not only omitted fields:
a present-but-null 24h change becomes `0.0`; more generally any falsy
change value (`0`, `0.0`, `None`) is replaced by the float `0.0`, and a
truthy value is kept; a missing name or symbol defaults to the empty
string; a missing volume defaults to the integer `0`, which is a
different Python value from the float `0.0`. -/
theorem C9_null_and_missing_defaults (c : Asset) (now : String) :
    (c.price_change_percentage_24h = .null → (normalizeCoin now c).change = .pyFloat 0) ∧
    (∀ v, c.price_change_percentage_24h = .val v → v.falsy = true →
      (normalizeCoin now c).change = .pyFloat 0) ∧
    (∀ v, c.price_change_percentage_24h = .val v → v.falsy = false →
      (normalizeCoin now c).change = v) ∧
    (c.name = none → (normalizeCoin now c).name = "") ∧
    (c.symbol = none → (normalizeCoin now c).symbol = "") ∧
    (c.total_volume = none → (normalizeCoin now c).volume = .pyInt 0) ∧
    PyNum.pyInt 0 ≠ PyNum.pyFloat 0 := by
  refine ⟨?_, ?_, ?_, ?_, ?_, ?_, by decide⟩
  · intro h; simp [normalizeCoin, h, JVal.get]
  · intro v h hv; simp [normalizeCoin, h, JVal.get, hv]
  · intro v h hv; simp [normalizeCoin, h, JVal.get, hv]
  · intro h; simp [normalizeCoin, h]
  · intro h; simp [normalizeCoin, h]; decide
  · intro h; simp [normalizeCoin, h]

/-- Witness for C9 at the concrete null-change and all-missing assets. -/
theorem C9_null_and_missing_defaults_witness :
    (normalizeCoin "2024-01-01 00:00:00" assetNull).change = .pyFloat 0 ∧
    (normalizeCoin "2024-01-01 00:00:00" assetMissing).name = "" ∧
    (normalizeCoin "2024-01-01 00:00:00" assetMissing).volume = .pyInt 0 := by
  exact ⟨(C9_null_and_missing_defaults assetNull "2024-01-01 00:00:00").1 rfl,
    (C9_null_and_missing_defaults assetMissing "2024-01-01 00:00:00").2.2.2.1 rfl,
    (C9_null_and_missing_defaults assetMissing "2024-01-01 00:00:00").2.2.2.2.2.1 rfl⟩

-- Step facts about a successful capture, used in the append-only induction.
theorem fetch_success_storeRows (coins : List Asset) (now : String) (st : AppState) :
    storeRows (fetch_crypto_data (.success coins) now st).2 =
      storeRows st ++ coins.map (normalizeCoin now) := by
  cases h : st.csv with
  | none => simp [fetch_crypto_data, storeRows, h]
  | some f => simp [fetch_crypto_data, storeRows, h]

theorem fetch_success_header (coins : List Asset) (now : String) (st : AppState) :
    headerCountOf (fetch_crypto_data (.success coins) now st).2 =
      if st.csv = none then 1 else headerCountOf st := by
  cases h : st.csv with
  | none => simp [fetch_crypto_data, headerCountOf, h]
  | some f => simp [fetch_crypto_data, headerCountOf, h]

theorem fetch_success_csv_ne_none (coins : List Asset) (now : String) (st : AppState) :
    ((fetch_crypto_data (.success coins) now st).2).csv ≠ none := by
  cases h : st.csv <;> simp [fetch_crypto_data, h]

theorem headerCountOf_eq (st : AppState) (g : CsvFile) (h : st.csv = some g) :
    headerCountOf st = g.headerCount := by
  simp [headerCountOf, h]

/-- C5: the store is append-only.  Over any sequence of successful
captures of batch size `B`, the row count grows by exactly `N × B`, the
prior rows stay untouched as a prefix, the header is written exactly
once when the first capture creates the file, and appends to an
existing file never change its header count. -/
theorem C5_append_only (resps : List (FetchResult × String)) (st : AppState) (B : ℕ)
    (hB : ∀ rn ∈ resps, batchSize rn.1 = some B) :
    (storeRows (runCaptures resps st)).length = (storeRows st).length + resps.length * B ∧
    (storeRows (runCaptures resps st)).take (storeRows st).length = storeRows st ∧
    (st.csv = none → resps ≠ [] → headerCountOf (runCaptures resps st) = 1) ∧
    (∀ f, st.csv = some f → headerCountOf (runCaptures resps st) = f.headerCount) := by
  induction resps generalizing st with
  | nil =>
    refine ⟨by simp [runCaptures], by simp [runCaptures], ?_, ?_⟩
    · intro _ hne; exact absurd rfl hne
    · intro f hf; simp [runCaptures, headerCountOf, hf]
  | cons rn rest ih =>
    have hb := hB rn (List.mem_cons_self rn rest)
    cases hrn : rn.1 with
    | failure => rw [hrn] at hb; exact absurd hb (by simp [batchSize])
    | success coins =>
      rw [hrn] at hb
      have hlen : coins.length = B := by
        simpa [batchSize] using hb
      have hrun : runCaptures (rn :: rest) st =
          runCaptures rest (fetch_crypto_data (.success coins) rn.2 st).2 := by
        simp [runCaptures, hrn]
      have hrest : ∀ x ∈ rest, batchSize x.1 = some B := fun x hx =>
        hB x (List.mem_cons_of_mem rn hx)
      have hstep := ih (fetch_crypto_data (.success coins) rn.2 st).2 hrest
      have hstore := fetch_success_storeRows coins rn.2 st
      have hhdr := fetch_success_header coins rn.2 st
      obtain ⟨g, hg⟩ := Option.ne_none_iff_exists'.mp
        (fetch_success_csv_ne_none coins rn.2 st)
      have hcount : headerCountOf (runCaptures rest
          (fetch_crypto_data (.success coins) rn.2 st).2) = g.headerCount :=
        hstep.2.2.2 g hg
      have hgcount : g.headerCount =
          if st.csv = none then 1 else headerCountOf st := by
        rw [← headerCountOf_eq _ g hg]; exact hhdr
      refine ⟨?_, ?_, ?_, ?_⟩
      · rw [hrun, hstep.1, hstore]
        simp [hlen]
        ring
      · rw [hrun]
        have h1 := hstep.2.1
        rw [hstore] at h1
        have hle : (storeRows st).length ≤
            (storeRows st ++ coins.map (normalizeCoin rn.2)).length := by
          simp
        calc (storeRows (runCaptures rest (fetch_crypto_data (.success coins) rn.2 st).2)).take
              (storeRows st).length
            = ((storeRows (runCaptures rest (fetch_crypto_data (.success coins) rn.2 st).2)).take
              (storeRows st ++ coins.map (normalizeCoin rn.2)).length).take
              (storeRows st).length := by
              rw [List.take_take]
              congr 1
              omega
          _ = (storeRows st ++ coins.map (normalizeCoin rn.2)).take (storeRows st).length := by
              rw [h1]
          _ = storeRows st := List.take_left _ _
      · intro hnone _
        rw [hrun, hcount, hgcount, if_pos hnone]
      · intro f hf
        rw [hrun, hcount, hgcount, if_neg (by simp [hf]), headerCountOf_eq st f hf]

/-- Witness for C5: two successful captures of batch size 2 on an
initially empty store yield 4 rows and a single header. -/
theorem C5_append_only_witness :
    (storeRows (runCaptures
      [(.success [asset1, assetNull], "2024-01-01 00:00:00"),
       (.success [asset1, assetNull], "2024-01-01 00:00:30")] ⟨[], none⟩)).length =
      (storeRows ⟨[], none⟩).length + 2 * 2 ∧
    headerCountOf (runCaptures
      [(.success [asset1, assetNull], "2024-01-01 00:00:00"),
       (.success [asset1, assetNull], "2024-01-01 00:00:30")] ⟨[], none⟩) = 1 := by
  have h := C5_append_only
    [(.success [asset1, assetNull], "2024-01-01 00:00:00"),
     (.success [asset1, assetNull], "2024-01-01 00:00:30")] ⟨[], none⟩ 2 (by decide)
  exact ⟨h.1, h.2.2.1 rfl (by decide)⟩

-- Bridge: the executable string comparisons agree with the
-- lexicographic (linear) order on strings.
theorem lex_cons_cases {a b : Char} {l₁ l₂ : List Char} :
    List.Lex (· < ·) (a :: l₁) (b :: l₂) ↔ a < b ∨ (a = b ∧ List.Lex (· < ·) l₁ l₂) := by
  constructor
  · intro h
    cases h with
    | rel h => exact .inl h
    | cons h => exact .inr ⟨rfl, h⟩
  · rintro (h | ⟨rfl, h⟩)
    · exact .rel h
    · exact .cons h

theorem charListLt_iff : ∀ l₁ l₂ : List Char,
    charListLt l₁ l₂ = true ↔ List.Lex (· < ·) l₁ l₂ := by
  intro l₁
  induction l₁ with
  | nil =>
    intro l₂
    cases l₂ with
    | nil =>
      simp only [charListLt, Bool.false_eq_true, false_iff]
      intro h; cases h
    | cons b bs =>
      simp only [charListLt, true_iff]
      exact List.Lex.nil
  | cons a as ih =>
    intro l₂
    cases l₂ with
    | nil =>
      simp only [charListLt, Bool.false_eq_true, false_iff]
      intro h; cases h
    | cons b bs =>
      by_cases hab : a < b
      · simp only [charListLt, if_pos hab, true_iff]
        exact .rel hab
      · by_cases hba : b < a
        · simp only [charListLt, if_neg hab, if_pos hba, Bool.false_eq_true, false_iff]
          rw [lex_cons_cases]
          rintro (h | ⟨rfl, h⟩)
          · exact hab h
          · exact lt_irrefl _ hba
        · have heq : a = b := le_antisymm (le_of_not_lt hba) (le_of_not_lt hab)
          simp only [charListLt, if_neg hab, if_neg hba]
          rw [lex_cons_cases, ih bs]
          subst heq
          simp [lt_irrefl]

theorem strLt_iff (s₁ s₂ : String) : strLt s₁ s₂ = true ↔ s₁ < s₂ := by
  rw [String.lt_iff_toList_lt]
  exact charListLt_iff s₁.data s₂.data

theorem strLe_iff (s₁ s₂ : String) : strLe s₁ s₂ = true ↔ s₁ ≤ s₂ := by
  have h : strLe s₁ s₂ = true ↔ ¬ strLt s₂ s₁ = true := by
    simp [strLe]
  rw [h, strLt_iff]
  exact not_lt

theorem strMax_eq (s₁ s₂ : String) : strMax s₁ s₂ = max s₁ s₂ := by
  rw [strMax, max_def]
  by_cases h : strLt s₁ s₂ = true
  · rw [if_pos h, if_pos (le_of_lt ((strLt_iff s₁ s₂).mp h))]
  · have h' : ¬ s₁ < s₂ := fun hc => h ((strLt_iff s₁ s₂).mpr hc)
    rw [if_neg h]
    by_cases hle : s₁ ≤ s₂
    · rw [if_pos hle]
      exact le_antisymm hle (le_of_not_lt h')
    · rw [if_neg hle]

theorem foldl_strMax_eq (l : List String) (a : String) :
    l.foldl strMax a = l.foldl max a := by
  induction l generalizing a with
  | nil => rfl
  | cons b bs ih => simp only [List.foldl_cons, strMax_eq, ih]

theorem latestTime_cons (r₀ : SnapshotRow) (rs : List SnapshotRow) :
    latestTime (r₀ :: rs) = (rs.map fun r => r.time).foldl max r₀.time := by
  simp only [latestTime, List.map_cons, listMaxStr]
  exact foldl_strMax_eq _ _

-- Facts about the lexicographic maximum used by the /pptx route.
theorem foldl_max_init_le (l : List String) (a : String) : a ≤ l.foldl max a := by
  induction l generalizing a with
  | nil => exact le_refl a
  | cons b bs ih => exact le_trans (le_max_left a b) (ih (max a b))

theorem foldl_max_le_of_mem (l : List String) (a : String) :
    ∀ x ∈ l, x ≤ l.foldl max a := by
  induction l generalizing a with
  | nil => intro x hx; exact absurd hx (List.not_mem_nil x)
  | cons b bs ih =>
    intro x hx
    rcases List.mem_cons.mp hx with rfl | hx
    · exact le_trans (le_max_right a x) (foldl_max_init_le bs (max a x))
    · exact ih (max a b) x hx

theorem foldl_max_mem (l : List String) (a : String) :
    l.foldl max a = a ∨ l.foldl max a ∈ l := by
  induction l generalizing a with
  | nil => exact .inl rfl
  | cons b bs ih =>
    rcases ih (max a b) with h | h
    · rcases max_choice a b with hm | hm
      · exact .inl (by simpa [hm] using h)
      · exact .inr (by simp [List.foldl_cons]; rw [h, hm]; exact .inl rfl)
    · exact .inr (List.mem_cons_of_mem b (by simpa using h))

theorem latestTime_attained (rows : List SnapshotRow) (hne : rows ≠ []) :
    ∃ r ∈ rows, r.time = latestTime rows := by
  cases rows with
  | nil => exact absurd rfl hne
  | cons r₀ rs =>
    have h : latestTime (r₀ :: rs) = r₀.time ∨
        latestTime (r₀ :: rs) ∈ rs.map (fun r => r.time) := by
      rw [latestTime_cons]
      exact foldl_max_mem (rs.map fun r => r.time) r₀.time
    rcases h with h | h
    · exact ⟨r₀, List.mem_cons_self r₀ rs, h.symm⟩
    · obtain ⟨r, hr, ht⟩ := List.mem_map.mp h
      exact ⟨r, List.mem_cons_of_mem r₀ hr, ht⟩

theorem latestTime_ub (rows : List SnapshotRow) :
    ∀ r ∈ rows, r.time ≤ latestTime rows := by
  intro r hr
  cases rows with
  | nil => exact absurd hr (List.not_mem_nil r)
  | cons r₀ rs =>
    rw [latestTime_cons]
    rcases List.mem_cons.mp hr with rfl | hr
    · exact foldl_max_init_le (rs.map fun x => x.time) r.time
    · exact foldl_max_le_of_mem (rs.map fun x => x.time) r₀.time r.time
        (List.mem_map.mpr ⟨r, hr, rfl⟩)

/-- C3: on a nonempty store, `/pptx` selects exactly the rows whose
`captured_at` equals the maximum `captured_at` over all rows, projected
to (name, symbol, price, change, volume) with the timestamp dropped;
in particular, when every row is at `t₁` or at `t₂` with `t₁ < t₂` and
some row is at `t₂`, exactly the `t₂` rows are returned. -/
theorem C3_latest_snapshot (f : CsvFile) (hne : f.rows ≠ []) :
    ppt (some f) = .ok (latestTime f.rows, latest_df f) ∧
    (∃ r ∈ f.rows, r.time = latestTime f.rows) ∧
    (∀ r ∈ f.rows, r.time ≤ latestTime f.rows) ∧
    (∀ x, x ∈ latest_df f ↔ ∃ r ∈ f.rows, r.time = latestTime f.rows ∧ x = proj r) ∧
    (∀ t₁ t₂, t₁ < t₂ → (∀ r ∈ f.rows, r.time = t₁ ∨ r.time = t₂) →
      (∃ r ∈ f.rows, r.time = t₂) →
      latest_df f = (f.rows.filter fun r => r.time = t₂).map proj) := by
  refine ⟨rfl, latestTime_attained f.rows hne, latestTime_ub f.rows, ?_, ?_⟩
  · intro x
    simp only [latest_df, List.mem_map, List.mem_filter, decide_eq_true_eq]
    constructor
    · rintro ⟨r, ⟨hr, ht⟩, rfl⟩
      exact ⟨r, hr, ht, rfl⟩
    · rintro ⟨r, hr, ht, rfl⟩
      exact ⟨r, ⟨hr, ht⟩, rfl⟩
  · intro t₁ t₂ hlt hall hex
    have hmax : latestTime f.rows = t₂ := by
      obtain ⟨r₂, hr₂, ht₂⟩ := hex
      have h1 : t₂ ≤ latestTime f.rows := ht₂ ▸ latestTime_ub f.rows r₂ hr₂
      obtain ⟨rm, hrm, hm⟩ := latestTime_attained f.rows hne
      rcases hall rm hrm with h | h
      · rw [← hm, h] at h1
        exact absurd (lt_of_le_of_lt h1 hlt) (lt_irrefl t₂)
      · rw [← hm, h]
    simp only [latest_df, hmax]

/-- Witness for C3 at the Scenario C store: two assets at one time, one
later single-asset capture; only the later row is exported. -/
theorem C3_latest_snapshot_witness :
    latest_df f2t = (f2t.rows.filter fun r =>
      r.time = "2024-01-01 00:00:30").map proj := by
  exact (C3_latest_snapshot f2t (by decide)).2.2.2.2
    "2024-01-01 00:00:00" "2024-01-01 00:00:30"
    ((strLt_iff "2024-01-01 00:00:00" "2024-01-01 00:00:30").mp (by decide))
    (by decide) (by decide)

/-- C6: the chart route matches its symbol case-insensitively (two
symbols with equal uppercasing yield identical responses, and a stored
row matches exactly when the uppercased symbols agree); it 404s when no
row matches; both the chart route (for any symbol) and the export route
404 when the CSV file does not exist. -/
theorem C6_not_found_handling :
    (∀ s, chart none s = .error "No data yet") ∧
    ppt none = .error "No data yet" ∧
    (∀ f s, f.rows.filter (matchSym s) = [] →
      chart (some f) s = .error "No data for this symbol") ∧
    (∀ s r, matchSym s r = true ↔ strUpper r.symbol = strUpper s) ∧
    (∀ csv s₁ s₂, strUpper s₁ = strUpper s₂ → chart csv s₁ = chart csv s₂) := by
  refine ⟨fun s => rfl, rfl, ?_, ?_, ?_⟩
  · intro f s h
    simp [chart, h]
  · intro s r
    simp [matchSym]
  · intro csv s₁ s₂ h
    cases csv with
    | none => rfl
    | some f =>
      have hm : matchSym s₁ = matchSym s₂ := by
        funext r; simp [matchSym, h]
      simp [chart, chartSeries, chartPrices, hm, h]

/-- Witness for C6: empty-store 404s, a no-match 404, and agreement of
lower- and upper-case queries on a concrete store. -/
theorem C6_not_found_handling_witness :
    chart none "BTC" = .error "No data yet" ∧
    ppt none = .error "No data yet" ∧
    chart (some ⟨1, []⟩) "XRP" = .error "No data for this symbol" ∧
    chart (some f12) "btc" = chart (some f12) "BTC" := by
  exact ⟨C6_not_found_handling.1 "BTC", C6_not_found_handling.2.1,
    C6_not_found_handling.2.2.1 ⟨1, []⟩ "XRP" rfl,
    C6_not_found_handling.2.2.2.2 (some f12) "btc" "BTC" (by decide)⟩

/-- C7: the 7-day feed returns an empty sequence on upstream failure; on
success it maps each (timestamp-ms, price) point to (date, price) with
the date derived purely from the day portion of the timestamp (two
timestamps in the same UTC day give the same date string) and the price
rounded to two decimals; points are passed through one-for-one, never
deduplicated; the point (1700000000000, 42.567) yields ("2023-11-14",
42.57). -/
theorem C7_seven_day_feed (prices : List (ℕ × ℚ)) (ms₁ ms₂ : ℕ)
    (hday : ms₁ / 86400000 = ms₂ / 86400000) :
    btc_history .failure = [] ∧
    btc_history (.success prices) = prices.map (fun p => (dateStrOfMs p.1, round2 p.2)) ∧
    (btc_history (.success prices)).length = prices.length ∧
    dateStrOfMs ms₁ = dateStrOfMs ms₂ ∧
    btc_history (.success [(1700000000000, 42567 / 1000)]) = [("2023-11-14", 4257 / 100)] := by
  refine ⟨rfl, rfl, by simp [btc_history], ?_, ?_⟩
  · unfold dateStrOfMs
    rw [hday]
  · have hd : dateStrOfMs 1700000000000 = "2023-11-14" := by decide
    have hr : round2 (42567 / 1000) = 4257 / 100 := by
      unfold round2 roundHalfEven
      have hf : ⌊(42567 / 1000 : ℚ) * 100⌋ = 4256 := by norm_num [Int.floor_eq_iff]
      rw [hf]
      norm_num
    simp [btc_history, hd, hr]

/-- Witness for C7: two timestamps of the same UTC day agree, and the
concrete point rounds and truncates as claimed. -/
theorem C7_seven_day_feed_witness :
    dateStrOfMs 1700000000123 = dateStrOfMs 1700000000000 ∧
    btc_history (.success [(1700000000000, 42567 / 1000)]) = [("2023-11-14", 4257 / 100)] := by
  have h := C7_seven_day_feed [] 1700000000123 1700000000000 (by decide)
  exact ⟨h.2.2.2.1, h.2.2.2.2⟩

-- Structure of the pct_change series and of the rolling window.
theorem pctAux_length (prev : ℚ) (ps : List ℚ) : (pctAux prev ps).length = ps.length := by
  induction ps generalizing prev with
  | nil => rfl
  | cons p ps ih => simp [pctAux, ih]

theorem pct_change_length (p : List ℚ) : (pct_change p).length = p.length := by
  cases p with
  | nil => rfl
  | cons q qs => simp [pct_change, pctAux_length]

-- Away from zero prices every return past index 0 is a valid finite
-- observation; a zero price puts the inf/NaN path (`none`) in play.
theorem pctAux_isSome_of_ne_zero (ps : List ℚ) : ∀ prev : ℚ, prev ≠ 0 →
    (∀ x ∈ ps, x ≠ 0) → ∀ x ∈ pctAux prev ps, x.isSome = true := by
  induction ps with
  | nil => intro prev _ _ x hx; exact absurd hx (List.not_mem_nil x)
  | cons p ps ih =>
    intro prev hprev hps x hx
    rcases List.mem_cons.mp hx with rfl | hx
    · rw [if_neg hprev]; rfl
    · exact ih p (hps p (List.mem_cons_self p ps))
        (fun y hy => hps y (List.mem_cons_of_mem p hy)) x hx

theorem filterMap_id_length_of_isSome {α : Type} (l : List (Option α))
    (h : ∀ x ∈ l, x.isSome = true) : (l.filterMap id).length = l.length := by
  induction l with
  | nil => rfl
  | cons a l ih =>
    cases a with
    | none => exact absurd (h none (List.mem_cons_self none l)) (by simp)
    | some v =>
      simp only [List.filterMap_cons, id_def, List.length_cons]
      rw [ih fun x hx => h x (List.mem_cons_of_mem _ hx)]

theorem rolling_var_length (r : List (Option ℚ)) : (rolling_var r).length = r.length := by
  simp [rolling_var]

theorem rolling_vol_length (p : List ℚ) : (rolling_vol p).length = p.length := by
  simp [rolling_vol, rolling_var_length, pct_change_length]

theorem rolling_var_entry (r : List (Option ℚ)) (i : ℕ) (hi : i < r.length) :
    (rolling_var r)[i]? = some (
      if (((r.take (i + 1)).drop (i + 1 - 10)).filterMap id).length = 10
      then some (sampleVar (((r.take (i + 1)).drop (i + 1 - 10)).filterMap id))
      else none) := by
  unfold rolling_var
  rw [List.getElem?_map, List.getElem?_range hi]
  rfl

theorem rolling_vol_early (p : List ℚ) (i : ℕ) (h9 : i ≤ 9) (hi : i < p.length) :
    (rolling_vol p)[i]? = some none := by
  cases p with
  | nil => exact absurd hi (by simp)
  | cons q qs =>
    have hir : i < (pct_change (q :: qs)).length := by
      rw [pct_change_length]; exact hi
    unfold rolling_vol
    rw [List.getElem?_map, rolling_var_entry _ i hir]
    have h0 : i + 1 - 10 = 0 := by omega
    have htake : (pct_change (q :: qs)).take (i + 1) = none :: (pctAux q qs).take i := by
      simp [pct_change, List.take_succ_cons]
    have hcond : ((((pct_change (q :: qs)).take (i + 1)).drop (i + 1 - 10)).filterMap
        id).length ≠ 10 := by
      rw [h0, List.drop_zero, htake]
      have hle : (((pctAux q qs).take i).filterMap id).length ≤ i := by
        calc (((pctAux q qs).take i).filterMap id).length
            ≤ ((pctAux q qs).take i).length := List.length_filterMap_le _ _
          _ ≤ i := by rw [List.length_take]; omega
      simp only [List.filterMap_cons, id_def]
      omega
    rw [if_neg hcond]
    rfl

theorem rolling_vol_late (p : List ℚ) (i : ℕ) (h10 : 10 ≤ i) (hi : i < p.length)
    (hnz : ∀ x ∈ p, x ≠ 0) :
    ((((pct_change p).drop (i - 9)).take 10).filterMap id).length = 10 ∧
    (rolling_vol p)[i]? = some (some (Real.sqrt
      ((sampleVar ((((pct_change p).drop (i - 9)).take 10).filterMap id) : ℚ) : ℝ) *
      Real.sqrt 252)) := by
  cases p with
  | nil => exact absurd hi (by simp)
  | cons q qs =>
    have hir : i < (pct_change (q :: qs)).length := by
      rw [pct_change_length]; exact hi
    have hw : ((pct_change (q :: qs)).take (i + 1)).drop (i + 1 - 10) =
        ((pct_change (q :: qs)).drop (i - 9)).take 10 := by
      rw [show i + 1 - 10 = i - 9 from by omega, List.drop_take,
        show i + 1 - (i - 9) = 10 from by omega]
    have hdrop : (pct_change (q :: qs)).drop (i - 9) = (pctAux q qs).drop (i - 10) := by
      rw [show i - 9 = (i - 10) + 1 from by omega]
      simp [pct_change, List.drop_succ_cons]
    have hsome : ∀ x ∈ ((pct_change (q :: qs)).drop (i - 9)).take 10, x.isSome = true := by
      intro x hx
      rw [hdrop] at hx
      exact pctAux_isSome_of_ne_zero qs q (hnz q (List.mem_cons_self q qs))
        (fun y hy => hnz y (List.mem_cons_of_mem q hy)) x
        (List.mem_of_mem_drop (List.mem_of_mem_take hx))
    have hwlen : (((pct_change (q :: qs)).drop (i - 9)).take 10).length = 10 := by
      have hi' : i < qs.length + 1 := by simpa using hi
      rw [List.length_take, List.length_drop, pct_change_length]
      simp only [List.length_cons]
      omega
    have hvals : ((((pct_change (q :: qs)).drop (i - 9)).take 10).filterMap id).length = 10 := by
      rw [filterMap_id_length_of_isSome _ hsome, hwlen]
    refine ⟨hvals, ?_⟩
    unfold rolling_vol
    rw [List.getElem?_map, rolling_var_entry _ i hir, hw, if_pos hvals]
    rfl

-- The chart's price series has one entry per selected row.
theorem insertTime_length (r : SnapshotRow) (l : List SnapshotRow) :
    (insertTime r l).length = l.length + 1 := by
  induction l with
  | nil => rfl
  | cons x xs ih =>
    by_cases h : strLe r.time x.time = true
    · simp [insertTime, h]
    · simp [insertTime, h, ih]

theorem sortByTime_length (l : List SnapshotRow) : (sortByTime l).length = l.length := by
  induction l with
  | nil => rfl
  | cons r rs ih => simp [sortByTime, insertTime_length, ih]

theorem chartPrices_length (f : CsvFile) (symbol : String) :
    (chartPrices f symbol).length = (f.rows.filter (matchSym symbol)).length := by
  simp [chartPrices, sortByTime_length]

/-- C1 (corrected): for a symbol whose store has L matching rows, the
chart's volatility series has exactly L entries; entries at positions
0..9 are undefined (position 9's window still contains the undefined
first return, so `rolling(10)` lacks 10 observations there); and when
the plotted prices are all nonzero — a zero price, which the `0.0`
default for a missing `current_price` can store, sends the adjacent
returns down the float `inf`/`NaN` path and undefines the windows that
contain them — every position from 10 on is defined and equals the
sample standard deviation of the 10 most recent returns ending at that
point times √252. -/
theorem C1_volatility_windowing (f : CsvFile) (symbol : String) (i : ℕ)
    (hne : f.rows.filter (matchSym symbol) ≠ []) :
    chart (some f) symbol = .ok (strUpper symbol ++ " Volatility", chartSeries f symbol) ∧
    (chartSeries f symbol).length = (f.rows.filter (matchSym symbol)).length ∧
    (i ≤ 9 → i < (f.rows.filter (matchSym symbol)).length →
      (chartSeries f symbol)[i]? = some none) ∧
    ((∀ q ∈ chartPrices f symbol, q ≠ 0) → 10 ≤ i →
      i < (f.rows.filter (matchSym symbol)).length →
      (chartSeries f symbol)[i]? = some (some (Real.sqrt
        ((sampleVar ((((pct_change (chartPrices f symbol)).drop (i - 9)).take
          10).filterMap id) : ℚ) : ℝ) * Real.sqrt 252)) ∧
      ((((pct_change (chartPrices f symbol)).drop (i - 9)).take 10).filterMap
        id).length = 10) := by
  refine ⟨by simp [chart, hne], ?_, ?_, ?_⟩
  · rw [chartSeries, rolling_vol_length, chartPrices_length]
  · intro h9 hiL
    exact rolling_vol_early (chartPrices f symbol) i h9 (by rw [chartPrices_length]; exact hiL)
  · intro hnz h10 hiL
    have h := rolling_vol_late (chartPrices f symbol) i h10
      (by rw [chartPrices_length]; exact hiL) hnz
    exact ⟨h.2, h.1⟩

/-- Witness for C1 (corrected) at the Scenario B store of 12 rows:
12 entries, positions 3 and 9 undefined, position 10 defined with the
annualized windowed standard deviation. -/
theorem C1_volatility_windowing_witness :
    (chartSeries f12 "BTC").length = (f12.rows.filter (matchSym "BTC")).length ∧
    (chartSeries f12 "BTC")[3]? = some none ∧
    (chartSeries f12 "BTC")[9]? = some none ∧
    (chartSeries f12 "BTC")[10]? = some (some (Real.sqrt
      ((sampleVar ((((pct_change (chartPrices f12 "BTC")).drop 1).take
        10).filterMap id) : ℚ) : ℝ) * Real.sqrt 252)) := by
  refine ⟨(C1_volatility_windowing f12 "BTC" 0 (by decide)).2.1,
    (C1_volatility_windowing f12 "BTC" 3 (by decide)).2.2.1 (by decide) (by decide),
    (C1_volatility_windowing f12 "BTC" 9 (by decide)).2.2.1 (by decide) (by decide),
    ((C1_volatility_windowing f12 "BTC" 10 (by decide)).2.2.2 (by decide) (by decide)
      (by decide)).1⟩

/-- Counterexample to C1 as stated: a store with exactly ten rows for
`BTC` (so the series has a position 9, whose entry the claim asserts is
defined) yields a volatility series that is undefined at every position,
position 9 included. -/
theorem C1_counterexample :
    chart (some cxFile) "BTC" = .ok ("BTC Volatility", List.replicate 10 none) ∧
    (List.replicate 10 (none : Option ℝ))[9]? = some none := by
  have hne : cxFile.rows.filter (matchSym "BTC") ≠ [] := by decide
  have hlen : (chartPrices cxFile "BTC").length = 10 := by decide
  have hso : chartSeries cxFile "BTC" = List.replicate 10 none := by
    rw [chartSeries]
    apply List.ext_getElem?
    intro i
    by_cases hi : i < 10
    · rw [rolling_vol_early (chartPrices cxFile "BTC") i (by omega) (by omega),
        List.getElem?_replicate, if_pos hi]
    · rw [List.getElem?_eq_none (by rw [rolling_vol_length]; omega),
        List.getElem?_eq_none (by simp; omega)]
  have hchart : chart (some cxFile) "BTC" =
      .ok (strUpper "BTC" ++ " Volatility", chartSeries cxFile "BTC") := by
    simp [chart, hne]
  rw [hchart, hso]
  exact ⟨by rw [show strUpper "BTC" ++ " Volatility" = "BTC Volatility" from by decide],
    by simp [List.getElem?_replicate]⟩

-- Digits, zero-padded renderings, and their numeric readings.
theorem isDig_iff (c : Char) : isDig c = true ↔ 48 ≤ c.toNat ∧ c.toNat ≤ 57 := by
  simp [isDig]

theorem digit_toNat (d : ℕ) (hd : d < 10) : (Char.ofNat (48 + d)).toNat = 48 + d := by
  interval_cases d <;> rfl

theorem digit_isDig (d : ℕ) (hd : d < 10) : isDig (Char.ofNat (48 + d)) = true := by
  interval_cases d <;> rfl

theorem pad2_digits (n : ℕ) (h : n < 100) : ∀ c ∈ pad2 n, isDig c = true := by
  intro c hc
  rcases List.mem_pair.mp (by simpa [pad2] using hc) with rfl | rfl
  · exact digit_isDig (n / 10) (by omega)
  · exact digit_isDig (n % 10) (by omega)

theorem pad4_digits (n : ℕ) (h : n < 10000) : ∀ c ∈ pad4 n, isDig c = true := by
  intro c hc
  simp only [pad4, List.mem_cons, List.not_mem_nil, or_false] at hc
  rcases hc with rfl | rfl | rfl | rfl
  · exact digit_isDig (n / 1000) (by omega)
  · exact digit_isDig (n / 100 % 10) (by omega)
  · exact digit_isDig (n / 10 % 10) (by omega)
  · exact digit_isDig (n % 10) (by omega)

theorem toNum_pad2 (n : ℕ) (h : n < 100) : toNum (pad2 n) = n := by
  simp only [pad2, toNum, List.length_cons, List.length_nil,
    digit_toNat (n / 10) (by omega), digit_toNat (n % 10) (by omega)]
  omega

theorem toNum_pad4 (n : ℕ) (h : n < 10000) : toNum (pad4 n) = n := by
  simp only [pad4, toNum, List.length_cons, List.length_nil,
    digit_toNat (n / 1000) (by omega), digit_toNat (n / 100 % 10) (by omega),
    digit_toNat (n / 10 % 10) (by omega), digit_toNat (n % 10) (by omega)]
  omega

theorem pad2_inj (m n : ℕ) (hm : m < 100) (hn : n < 100) :
    pad2 m = pad2 n ↔ m = n := by
  constructor
  · intro h
    rw [← toNum_pad2 m hm, ← toNum_pad2 n hn, h]
  · rintro rfl; rfl

theorem pad4_inj (m n : ℕ) (hm : m < 10000) (hn : n < 10000) :
    pad4 m = pad4 n ↔ m = n := by
  constructor
  · intro h
    rw [← toNum_pad4 m hm, ← toNum_pad4 n hn, h]
  · rintro rfl; rfl

theorem toNum_lt (l : List Char) (h : ∀ c ∈ l, isDig c = true) :
    toNum l < 10 ^ l.length := by
  induction l with
  | nil => simp [toNum]
  | cons c cs ih =>
    have hc := (isDig_iff c).mp (h c (List.mem_cons_self c cs))
    have ihs := ih fun x hx => h x (List.mem_cons_of_mem c hx)
    have hbound : c.toNat - 48 ≤ 9 := by omega
    have h1 : (c.toNat - 48) * 10 ^ cs.length ≤ 9 * 10 ^ cs.length :=
      Nat.mul_le_mul_right _ hbound
    simp only [toNum, List.length_cons, pow_succ]
    omega

theorem toNum_append (l₁ l₂ : List Char) :
    toNum (l₁ ++ l₂) = toNum l₁ * 10 ^ l₂.length + toNum l₂ := by
  induction l₁ with
  | nil => simp [toNum]
  | cons c cs ih =>
    simp only [List.cons_append, toNum, List.append_eq, ih]
    rw [show (cs ++ l₂).length = cs.length + l₂.length from List.length_append cs l₂, pow_add]
    ring

-- Lexicographic comparison of equal-length digit blocks is numeric
-- comparison of their readings.
theorem mixed_radix_lt (vx vy tx ty K : ℕ) (htx : tx < K) (hty : ty < K) :
    vx * K + tx < vy * K + ty ↔ vx < vy ∨ (vx = vy ∧ tx < ty) := by
  constructor
  · intro h
    rcases lt_trichotomy vx vy with hv | hv | hv
    · exact .inl hv
    · exact .inr ⟨hv, by subst hv; omega⟩
    · exfalso
      have h1 : (vy + 1) * K ≤ vx * K := Nat.mul_le_mul_right _ (by omega)
      have h2 : vy * K + K ≤ vx * K := by
        calc vy * K + K = (vy + 1) * K := by ring
          _ ≤ vx * K := h1
      omega
  · rintro (hv | ⟨rfl, ht⟩)
    · have h1 : (vx + 1) * K ≤ vy * K := Nat.mul_le_mul_right _ (by omega)
      have h2 : vx * K + K ≤ vy * K := by
        calc vx * K + K = (vx + 1) * K := by ring
          _ ≤ vy * K := h1
      omega
    · omega

theorem char_eq_iff_toNat (x y : Char) : x = y ↔ x.toNat = y.toNat := by
  constructor
  · rintro rfl; rfl
  · intro h; exact Char.ext (UInt32.ext h)

theorem lex_digit_block (a : List Char) : ∀ (b u v : List Char),
    a.length = b.length →
    (∀ c ∈ a, isDig c = true) → (∀ c ∈ b, isDig c = true) →
    (List.Lex (· < ·) (a ++ u) (b ++ v) ↔
      toNum a < toNum b ∨ (a = b ∧ List.Lex (· < ·) u v)) := by
  induction a with
  | nil =>
    intro b u v hlen _ _
    have hb : b = [] := by
      cases b with
      | nil => rfl
      | cons y ys => exact absurd hlen (by simp)
    subst hb
    simp [toNum]
  | cons x xs ih =>
    intro b u v hlen hda hdb
    cases b with
    | nil => exact absurd hlen (by simp)
    | cons y ys =>
      have hlen' : xs.length = ys.length := by simpa using hlen
      have hdx := (isDig_iff x).mp (hda x (List.mem_cons_self x xs))
      have hdy := (isDig_iff y).mp (hdb y (List.mem_cons_self y ys))
      have hdxs : ∀ c ∈ xs, isDig c = true := fun c hc => hda c (List.mem_cons_of_mem x hc)
      have hdys : ∀ c ∈ ys, isDig c = true := fun c hc => hdb c (List.mem_cons_of_mem y hc)
      have htx : toNum xs < 10 ^ ys.length := hlen' ▸ toNum_lt xs hdxs
      have hty : toNum ys < 10 ^ ys.length := toNum_lt ys hdys
      have htn : toNum (x :: xs) < toNum (y :: ys) ↔
          x.toNat - 48 < y.toNat - 48 ∨
            (x.toNat - 48 = y.toNat - 48 ∧ toNum xs < toNum ys) := by
        simp only [toNum, hlen']
        exact mixed_radix_lt (x.toNat - 48) (y.toNat - 48) (toNum xs) (toNum ys)
          (10 ^ ys.length) htx hty
      have hclt : x < y ↔ x.toNat - 48 < y.toNat - 48 := by
        rw [show (x < y) ↔ x.toNat < y.toNat from Iff.rfl]
        omega
      have hceq : x = y ↔ x.toNat - 48 = y.toNat - 48 := by
        rw [char_eq_iff_toNat]
        omega
      rw [List.cons_append, List.cons_append, lex_cons_cases,
        ih ys u v hlen' hdxs hdys, htn, hclt, hceq, List.cons_eq_cons, hceq]
      tauto

theorem lex_sep (c : Char) (u v : List Char) :
    List.Lex (· < ·) (c :: u) (c :: v) ↔ List.Lex (· < ·) u v :=
  List.Lex.cons_iff

theorem lex_nil_nil : ¬ List.Lex (· < ·) ([] : List Char) [] := by
  intro h; cases h

theorem lex_digit_last (a b : List Char) (hlen : a.length = b.length)
    (hda : ∀ c ∈ a, isDig c = true) (hdb : ∀ c ∈ b, isDig c = true) :
    List.Lex (· < ·) a b ↔ toNum a < toNum b := by
  have h := lex_digit_block a b [] [] hlen hda hdb
  rw [List.append_nil, List.append_nil] at h
  rw [h]
  have : ¬ (a = b ∧ List.Lex (· < ·) ([] : List Char) []) := fun hc => lex_nil_nil hc.2
  tauto

theorem fmtTime_lex
    (y₁ mo₁ d₁ hr₁ mi₁ s₁ y₂ mo₂ d₂ hr₂ mi₂ s₂ : ℕ)
    (hy₁ : y₁ < 10000) (hmo₁ : mo₁ < 100) (hd₁ : d₁ < 100) (hhr₁ : hr₁ < 100)
    (hmi₁ : mi₁ < 100) (hs₁ : s₁ < 100)
    (hy₂ : y₂ < 10000) (hmo₂ : mo₂ < 100) (hd₂ : d₂ < 100) (hhr₂ : hr₂ < 100)
    (hmi₂ : mi₂ < 100) (hs₂ : s₂ < 100) :
    List.Lex (· < ·) (fmtTime y₁ mo₁ d₁ hr₁ mi₁ s₁) (fmtTime y₂ mo₂ d₂ hr₂ mi₂ s₂) ↔
      timeKey y₁ mo₁ d₁ hr₁ mi₁ s₁ < timeKey y₂ mo₂ d₂ hr₂ mi₂ s₂ := by
  unfold fmtTime
  rw [lex_digit_block (pad4 y₁) (pad4 y₂) _ _ (by simp [pad4])
      (pad4_digits y₁ hy₁) (pad4_digits y₂ hy₂),
    toNum_pad4 y₁ hy₁, toNum_pad4 y₂ hy₂, pad4_inj y₁ y₂ hy₁ hy₂, lex_sep,
    lex_digit_block (pad2 mo₁) (pad2 mo₂) _ _ (by simp [pad2])
      (pad2_digits mo₁ hmo₁) (pad2_digits mo₂ hmo₂),
    toNum_pad2 mo₁ hmo₁, toNum_pad2 mo₂ hmo₂, pad2_inj mo₁ mo₂ hmo₁ hmo₂, lex_sep,
    lex_digit_block (pad2 d₁) (pad2 d₂) _ _ (by simp [pad2])
      (pad2_digits d₁ hd₁) (pad2_digits d₂ hd₂),
    toNum_pad2 d₁ hd₁, toNum_pad2 d₂ hd₂, pad2_inj d₁ d₂ hd₁ hd₂, lex_sep,
    lex_digit_block (pad2 hr₁) (pad2 hr₂) _ _ (by simp [pad2])
      (pad2_digits hr₁ hhr₁) (pad2_digits hr₂ hhr₂),
    toNum_pad2 hr₁ hhr₁, toNum_pad2 hr₂ hhr₂, pad2_inj hr₁ hr₂ hhr₁ hhr₂, lex_sep,
    lex_digit_block (pad2 mi₁) (pad2 mi₂) _ _ (by simp [pad2])
      (pad2_digits mi₁ hmi₁) (pad2_digits mi₂ hmi₂),
    toNum_pad2 mi₁ hmi₁, toNum_pad2 mi₂ hmi₂, pad2_inj mi₁ mi₂ hmi₁ hmi₂, lex_sep,
    lex_digit_last (pad2 s₁) (pad2 s₂) (by simp [pad2])
      (pad2_digits s₁ hs₁) (pad2_digits s₂ hs₂),
    toNum_pad2 s₁ hs₁, toNum_pad2 s₂ hs₂]
  unfold timeKey
  omega

theorem filter_isDig_sep (c : Char) (l : List Char) (hc : isDig c = false) :
    (c :: l).filter isDig = l.filter isDig := by
  simp [List.filter_cons, hc]

theorem chronVal_fmt (str : String) (y mo d hr mi s : ℕ)
    (hy : y < 10000) (hmo : mo < 100) (hd : d < 100) (hhr : hr < 100)
    (hmi : mi < 100) (hs : s < 100)
    (hdata : str.data = fmtTime y mo d hr mi s) :
    chronVal str = timeKey y mo d hr mi s := by
  rw [chronVal, hdata]
  unfold fmtTime
  have f2 : ∀ n, n < 100 → (pad2 n).filter isDig = pad2 n := fun n hn =>
    List.filter_eq_self.mpr (pad2_digits n hn)
  have e1 : (pad2 mi ++ ':' :: pad2 s).filter isDig = pad2 mi ++ pad2 s := by
    rw [List.filter_append, f2 mi hmi, filter_isDig_sep ':' (pad2 s) rfl, f2 s hs]
  have e2 : (pad2 hr ++ ':' :: (pad2 mi ++ ':' :: pad2 s)).filter isDig =
      pad2 hr ++ (pad2 mi ++ pad2 s) := by
    rw [List.filter_append, f2 hr hhr, filter_isDig_sep ':' _ rfl, e1]
  have e3 : (pad2 d ++ ' ' :: (pad2 hr ++ ':' :: (pad2 mi ++ ':' :: pad2 s))).filter isDig =
      pad2 d ++ (pad2 hr ++ (pad2 mi ++ pad2 s)) := by
    rw [List.filter_append, f2 d hd, filter_isDig_sep ' ' _ rfl, e2]
  have e4 : (pad2 mo ++ '-' :: (pad2 d ++ ' ' :: (pad2 hr ++ ':' ::
      (pad2 mi ++ ':' :: pad2 s)))).filter isDig =
      pad2 mo ++ (pad2 d ++ (pad2 hr ++ (pad2 mi ++ pad2 s))) := by
    rw [List.filter_append, f2 mo hmo, filter_isDig_sep '-' _ rfl, e3]
  rw [List.filter_append, List.filter_eq_self.mpr (pad4_digits y hy),
    filter_isDig_sep '-' _ rfl, e4]
  have n1 : toNum (pad2 mi ++ pad2 s) = mi * 100 + s := by
    rw [toNum_append, show (pad2 s).length = 2 from rfl,
      toNum_pad2 mi hmi, toNum_pad2 s hs]
    norm_num
  have n2 : toNum (pad2 hr ++ (pad2 mi ++ pad2 s)) = hr * 10000 + (mi * 100 + s) := by
    rw [toNum_append, show (pad2 mi ++ pad2 s).length = 4 from by simp [pad2],
      toNum_pad2 hr hhr, n1]
    norm_num
  have n3 : toNum (pad2 d ++ (pad2 hr ++ (pad2 mi ++ pad2 s))) =
      d * 1000000 + (hr * 10000 + (mi * 100 + s)) := by
    rw [toNum_append, show (pad2 hr ++ (pad2 mi ++ pad2 s)).length = 6 from by simp [pad2],
      toNum_pad2 d hd, n2]
    norm_num
  have n4 : toNum (pad2 mo ++ (pad2 d ++ (pad2 hr ++ (pad2 mi ++ pad2 s)))) =
      mo * 100000000 + (d * 1000000 + (hr * 10000 + (mi * 100 + s))) := by
    rw [toNum_append,
      show (pad2 d ++ (pad2 hr ++ (pad2 mi ++ pad2 s))).length = 8 from by simp [pad2],
      toNum_pad2 mo hmo, n3]
    norm_num
  rw [toNum_append,
    show (pad2 mo ++ (pad2 d ++ (pad2 hr ++ (pad2 mi ++ pad2 s)))).length = 10 from by
      simp [pad2],
    toNum_pad4 y hy, n4]
  unfold timeKey
  ring

theorem wf_lt_iff (s₁ s₂ : String) (h₁ : WFTime s₁) (h₂ : WFTime s₂) :
    s₁ < s₂ ↔ chronVal s₁ < chronVal s₂ := by
  obtain ⟨y₁, mo₁, d₁, hr₁, mi₁, se₁, hy₁, hmo₁, hd₁, hhr₁, hmi₁, hs₁, hdata₁⟩ := h₁
  obtain ⟨y₂, mo₂, d₂, hr₂, mi₂, se₂, hy₂, hmo₂, hd₂, hhr₂, hmi₂, hs₂, hdata₂⟩ := h₂
  rw [chronVal_fmt s₁ y₁ mo₁ d₁ hr₁ mi₁ se₁ hy₁ hmo₁ hd₁ hhr₁ hmi₁ hs₁ hdata₁,
    chronVal_fmt s₂ y₂ mo₂ d₂ hr₂ mi₂ se₂ hy₂ hmo₂ hd₂ hhr₂ hmi₂ hs₂ hdata₂,
    String.lt_iff_toList_lt,
    show (s₁.toList < s₂.toList) = List.Lex (· < ·) s₁.data s₂.data from rfl,
    hdata₁, hdata₂]
  exact fmtTime_lex y₁ mo₁ d₁ hr₁ mi₁ se₁ y₂ mo₂ d₂ hr₂ mi₂ se₂
    hy₁ hmo₁ hd₁ hhr₁ hmi₁ hs₁ hy₂ hmo₂ hd₂ hhr₂ hmi₂ hs₂

theorem wf_le_iff (s₁ s₂ : String) (h₁ : WFTime s₁) (h₂ : WFTime s₂) :
    s₁ ≤ s₂ ↔ chronVal s₁ ≤ chronVal s₂ := by
  have h := not_congr (wf_lt_iff s₂ s₁ h₂ h₁)
  rw [not_lt, not_lt] at h
  exact h

theorem wf_chronVal_inj (s₁ s₂ : String) (h₁ : WFTime s₁) (h₂ : WFTime s₂)
    (h : chronVal s₁ = chronVal s₂) : s₁ = s₂ :=
  le_antisymm ((wf_le_iff s₁ s₂ h₁ h₂).mpr (le_of_eq h))
    ((wf_le_iff s₂ s₁ h₂ h₁).mpr (le_of_eq h.symm))

/-- C10: `/pptx` computes the latest timestamp as the maximum of the
`time` strings compared as plain text; when every stored `time` is in
the fixed `YYYY-MM-DD HH:MM:SS` format, this string maximum is attained
and is the chronologically latest capture time (maximal `chronVal`, the
packed (y,m,d,h,mi,s) reading), and selecting rows by string equality
with it selects exactly the rows of maximal chronological value — the
string-based selection refines the spec's max-`captured_at` selection. -/
theorem C10_string_max_refinement (rows : List SnapshotRow) (hne : rows ≠ [])
    (hwf : ∀ r ∈ rows, WFTime r.time) :
    (∃ r ∈ rows, r.time = latestTime rows) ∧
    (∀ r ∈ rows, chronVal r.time ≤ chronVal (latestTime rows)) ∧
    (∀ r ∈ rows, (r.time = latestTime rows ↔
      chronVal r.time = chronVal (latestTime rows))) ∧
    (∀ hc : ℕ, latest_df ⟨hc, rows⟩ = (rows.filter fun r =>
      chronVal r.time = chronVal (latestTime rows)).map proj) := by
  obtain ⟨rm, hrm, hm⟩ := latestTime_attained rows hne
  have hwfmax : WFTime (latestTime rows) := hm ▸ hwf rm hrm
  have hub : ∀ r ∈ rows, chronVal r.time ≤ chronVal (latestTime rows) := fun r hr =>
    (wf_le_iff r.time (latestTime rows) (hwf r hr) hwfmax).mp (latestTime_ub rows r hr)
  have hsel : ∀ r ∈ rows, (r.time = latestTime rows ↔
      chronVal r.time = chronVal (latestTime rows)) := by
    intro r hr
    constructor
    · intro h; rw [h]
    · intro h; exact wf_chronVal_inj r.time (latestTime rows) (hwf r hr) hwfmax h
  refine ⟨⟨rm, hrm, hm⟩, hub, hsel, ?_⟩
  intro hc
  simp only [latest_df]
  congr 1
  apply List.filter_congr
  intro r hr
  exact decide_eq_decide.mpr (hsel r hr)

/-- Witness for C10 at the Scenario C store: the string-selected export
rows equal the chronologically-selected rows. -/
theorem C10_string_max_refinement_witness :
    latest_df ⟨1, f2t.rows⟩ = (f2t.rows.filter fun r =>
      chronVal r.time = chronVal (latestTime f2t.rows)).map proj := by
  refine (C10_string_max_refinement f2t.rows (by decide) ?_).2.2.2 1
  intro r hr
  have hmem : r = mkRow "2024-01-01 00:00:00" "BTC" 100 ∨
      r = mkRow "2024-01-01 00:00:00" "ETH" 10 ∨
      r = mkRow "2024-01-01 00:00:30" "BTC" 101 := by
    simpa [f2t] using hr
  rcases hmem with rfl | rfl | rfl
  · exact ⟨2024, 1, 1, 0, 0, 0, by omega, by omega, by omega, by omega, by omega,
      by omega, by decide⟩
  · exact ⟨2024, 1, 1, 0, 0, 0, by omega, by omega, by omega, by omega, by omega,
      by omega, by decide⟩
  · exact ⟨2024, 1, 1, 0, 0, 30, by omega, by omega, by omega, by omega, by omega,
      by omega, by decide⟩
